import Mathlib

/-!
Shallow embedding of the astro-uploader repository (syhily/astro-uploader).

The repository holds three historical variants of the same Astro
integration:

* variant A: src/index.ts (opendal, override stored on the Uploader class);
* variant B: the opendal rewrite in src/unnamed/part_002 (lines 206-460),
  where isExist takes the override flag and catches NotFound errors;
* variant C: the AWS-SDK rewrite in src/unnamed/part_002 (lines 1-205),
  which lists remote objects and filters the files to upload.

Every definition below is translated from one of those source files; the
doc comment of each definition names the function it embeds.  Sizes and
content lengths are modelled as Int (JavaScript numbers / BigInt values),
storage calls as an explicit event trace in issue order.
-/

namespace AstroUploader

/-- Metadata returned by opendal's stat: the content length may be null. -/
structure Metadata where
  contentLength : Option Int
deriving DecidableEq, Repr

/-- A storage-client error as observed by the opendal variants: only the
message string of the thrown error is inspected by the code. -/
structure OpdError where
  msg : String
deriving DecidableEq, Repr

/-- Substring containment over character lists (JavaScript includes). -/
def containsSub (pat s : List Char) : Bool :=
  s.tails.any (fun t => pat.isPrefixOf t)

/-- The NotFound test in variant B's catch block:
err.toString().includes('Error: NotFound'). -/
def msgIncludesNotFound (m : String) : Bool :=
  containsSub "Error: NotFound".data m.data

/-- One storage or filesystem call issued by a run, in issue order. -/
inductive Ev where
  | existQ (key : String)
  | statQ (key : String)
  | deleteObj (key : String)
  | putObj (key : String)
  | putFail (key : String)
  | clientCreate
  | headBucket
  | checkConn
  | listObjects (pre : String)
  | readLocal (p : String)
  | unlink (p : String)
  | rmTree (p : String)
  | logLine (m : String)
deriving DecidableEq, Repr

/-- Uploader.isExist from src/index.ts (variant A).  The override flag is
the one stored on the class.  Returns the boolean the method returns
(true means the key is treated as existing and the upload is skipped)
together with the storage calls issued:
operator.isExist, then, when the object exists, operator.stat; when the
content length is non-null and differs from the local size, either a
delete (override) or an early true (no override); otherwise fall through
to false. -/
def isExistA (remote : Option Metadata) (key : String) (size : Int)
    (override : Bool) : Bool × List Ev :=
  match remote with
  | none => (false, [.existQ key])
  | some meta =>
    match meta.contentLength with
    | some cl =>
      if cl != size then
        if override then (false, [.existQ key, .statQ key, .deleteObj key])
        else (true, [.existQ key, .statQ key])
      else (false, [.existQ key, .statQ key])
    | none => (false, [.existQ key, .statQ key])

/-- Uploader.isExist from the part_002 opendal variant (variant B).
operator.stat is modelled by its result; on success the object is deleted
and false returned when the content length is non-null and differs from
the local size, or when override is set; a caught error whose message
contains 'Error: NotFound' yields false; any other error is rethrown.
The second component is the trace of storage calls issued. -/
def isExistB (statR : Except OpdError Metadata) (key : String) (size : Int)
    (override : Bool) : Except OpdError Bool × List Ev :=
  match statR with
  | .ok meta =>
    if (meta.contentLength.elim false (fun cl => cl != size)) || override then
      (.ok false, [.statQ key, .deleteObj key])
    else
      (.ok true, [.statQ key])
  | .error err =>
    if msgIncludesNotFound err.msg then (.ok false, [.statQ key])
    else (.error err, [.statQ key])

/-- A file handed to the upload loops: its directory-entry name, its local
path, its size, and whether the external client accepts the put issued
for it (the oracle for upload success). -/
structure FileEntry where
  name : String
  path : String
  size : Int
  putOk : Bool
deriving DecidableEq, Repr

/-- A JavaScript value as seen by the truthiness test of
Array.prototype.filter: the async callback in variant C's uploadFiles
hands filter a Promise object carrying the boolean it would resolve to. -/
inductive JsValue where
  | promise (resolvesTo : Bool)
deriving DecidableEq, Repr

/-- ECMAScript ToBoolean: every object, a Promise included, is truthy. -/
def toBoolean : JsValue → Bool
  | .promise _ => true

/-- The value the async filter callback in variant C's uploadFiles would
resolve to: keep the file unless a remote object of the same name exists
with exactly the local size. -/
def shouldUploadCallback (objects : String → Option Int) (file : FileEntry) :
    Bool :=
  match objects file.name with
  | some objSize => if file.size == objSize then false else true
  | none => true

/-- The list of files variant C's uploadFiles actually uploads in the
non-override branch: files.filter applied to the async callback keeps an
element exactly when the callback's returned Promise object is truthy. -/
def filteredFiles (objects : String → Option Int) (files : List FileEntry) :
    List FileEntry :=
  files.filter (fun file => toBoolean (.promise (shouldUploadCallback objects file)))

/-- The Windows path separator (path.win32.sep). -/
def winSep : Char := '\\'

/-- The POSIX path separator (path.posix.sep). -/
def posixSep : Char := '/'

/-- JavaScript String.prototype.includes for a single character. -/
def includesChar (c : Char) (cs : List Char) : Bool :=
  cs.any (fun x => x == c)

/-- JavaScript String.prototype.startsWith, at the character level (the
built-in String.startsWith is byte-position based and is modelled here
over the character list). -/
def strStartsWith (s pre : String) : Bool :=
  pre.data.isPrefixOf s.data

/-- JavaScript String.prototype.split on a single-character separator. -/
def splitOnChar (sep : Char) : List Char → List (List Char)
  | [] => [[]]
  | c :: cs =>
    match splitOnChar sep cs with
    | [] => [[]]
    | w :: ws => if c == sep then [] :: w :: ws else (c :: w) :: ws

/-- JavaScript Array.prototype.join with a separator. -/
def joinWith (sep : List Char) : List (List Char) → List Char
  | [] => []
  | [w] => w
  | w :: v :: ws => w ++ sep ++ joinWith sep (v :: ws)

/-- normalizePath from src/index.ts and the part_002 opendal variant, at
the character level: when the string includes the Windows separator,
split on it and join with the POSIX separator; otherwise return it
unchanged. -/
def normalizeChars (cs : List Char) : List Char :=
  if includesChar winSep cs then joinWith [posixSep] (splitOnChar winSep cs)
  else cs

/-- normalizePath wrapped back to strings. -/
def normalizePath (current : String) : String :=
  ⟨normalizeChars current.data⟩

/-- node's path.join for the two-segment uses in the sources, restricted
to the forward-slash form the code relies on: an empty side is dropped,
otherwise the sides are joined with a single separator. -/
def joinPath (a b : String) : String :=
  if a = "" then b else if b = "" then a else a ++ "/" ++ b

mutual
/-- A node of the local build-output tree handed to the walkers: a regular
file carries its size and the oracle telling whether the storage client
accepts the put issued for it; a directory carries its named entries in
listing order. -/
inductive FsNode where
  | file (size : Int) (putOk : Bool)
  | dir (entries : Entries)
/-- A directory listing, in the order readdir returns it. -/
inductive Entries where
  | nil
  | cons (name : String) (node : FsNode) (rest : Entries)
end

/-- Whether a node is a directory (fs.statSync(...).isDirectory()). -/
def FsNode.isDir : FsNode → Bool
  | .file _ _ => false
  | .dir _ => true

mutual
/-- The upload candidates produced by uploadFile from the part_002 opendal
variant (variant B): the isFile branch yields the node at its current
path; the directory branch lists entries, skips names starting with a
dot, and recurses into an entry when the target is recursive or the next
path is not a directory.  Yields pairs of the accumulated path and the
node the upload action would receive. -/
def walkB : FsNode → String → Bool → List (String × FsNode)
  | .file size putOk, cur, _ => [(cur, .file size putOk)]
  | .dir entries, cur, recursive => walkBEntries entries cur recursive
/-- The directory branch of variant B's uploadFile over one listing. -/
def walkBEntries : Entries → String → Bool → List (String × FsNode)
  | .nil, _, _ => []
  | .cons name child rest, cur, recursive =>
    (if strStartsWith name "." then []
     else if recursive || !child.isDir then walkB child (joinPath cur name) recursive
     else [])
    ++ walkBEntries rest cur recursive
end

/-- The claim's description of shallow walking: only the non-hidden
direct-child files of the target directory, in listing order. -/
def shallowFiles : Entries → String → List (String × FsNode)
  | .nil, _ => []
  | .cons name child rest, cur =>
    (match child with
     | .file size putOk =>
       if strStartsWith name "." then [] else [(joinPath cur name, .file size putOk)]
     | .dir _ => [])
    ++ shallowFiles rest cur

mutual
/-- The claim's description of deep walking: every file at every depth
whose path crosses no hidden name. -/
def deepFiles : FsNode → String → List (String × FsNode)
  | .file size putOk, cur => [(cur, .file size putOk)]
  | .dir entries, cur => deepFilesEntries entries cur
/-- deepFiles over one directory listing. -/
def deepFilesEntries : Entries → String → List (String × FsNode)
  | .nil, _ => []
  | .cons name child rest, cur =>
    (if strStartsWith name "." then [] else deepFiles child (joinPath cur name))
    ++ deepFilesEntries rest cur
end

/-- The outcome of one hook invocation: the storage and filesystem calls
issued, in order, and the error that aborted the run, if any. -/
structure RunResult where
  events : List Ev
  error : Option String
deriving DecidableEq, Repr

/-- A configured path entry in variant C: either a bare string or a Path
object with optional per-path flags. -/
inductive PathSpec where
  | str (path : String)
  | obj (path : String) (recursive keep override : Option Bool)
deriving DecidableEq, Repr

/-- The path field of a configured entry. -/
def PathSpec.pathOf : PathSpec → String
  | .str p => p
  | .obj p _ _ _ => p

/-- The resolved per-path record built by variant C's uploader hook. -/
structure PathRecord where
  rootPath : String
  filePath : String
  recursive : Bool
  keep : Bool
  override : Bool
deriving DecidableEq, Repr

/-- The error thrown for a parent-directory path (message text holds no
apostrophe; the claims do not depend on the exact wording). -/
def parentDirMsg : String :=
  "It is not allowed to upload the parent directories. Only child directories."

/-- The paths.map body in variant C's uploader hook: each entry whose path
starts with two dots throws; a bare string becomes a fully-recursive,
non-keep, non-override record; an object resolves recursive as
not-explicitly-false and keep/override as explicitly-true. -/
def resolvePathsC (dirPathname : String) :
    List PathSpec → Except String (List PathRecord)
  | [] => .ok []
  | .str p :: rest =>
    if strStartsWith p ".." then .error parentDirMsg
    else
      match resolvePathsC dirPathname rest with
      | .error e => .error e
      | .ok rs =>
        .ok ({ rootPath := dirPathname, filePath := p, recursive := true,
               keep := false, override := false } :: rs)
  | .obj p r k o :: rest =>
    if strStartsWith p ".." then .error parentDirMsg
    else
      match resolvePathsC dirPathname rest with
      | .error e => .error e
      | .ok rs =>
        .ok ({ rootPath := dirPathname, filePath := p,
               recursive := r != some false, keep := k == some true,
               override := o == some true } :: rs)

/-- The put issued for one file: a putObj when the external client accepts
it, a putFail otherwise. -/
def putEv (f : FileEntry) (key : String) : Ev :=
  if f.putOk then .putObj key else .putFail key

/-- One directory visit of variant C's uploadFiles: with override, every
file of the batch is uploaded directly; otherwise ListObjectsV2 is issued
and the files kept by the (always-truthy) async filter are uploaded.
When every put of the batch succeeds and keep is false, the files just
processed are unlinked; a rejected put makes Promise.all reject before
the unlink line is reached.  Returns the events and whether the batch
completed. -/
def batchRun (objects : String → Option Int) (bucketRoot : String)
    (keep override : Bool) (rel : String) (files : List FileEntry) :
    List Ev × Bool :=
  let chosen := if override then files else filteredFiles objects files
  let listEv : List Ev :=
    if override then [] else [.listObjects (joinPath bucketRoot rel)]
  let puts := chosen.map (fun f => putEv f (joinPath (joinPath bucketRoot rel) f.name))
  if chosen.all (fun f => f.putOk) then
    (listEv ++ puts ++ (if keep then [] else files.map (fun f => Ev.unlink f.path)), true)
  else (listEv ++ puts, false)

/-- The walk callback applied to every directory batch of one target, in
visit order; a failed batch aborts the walk. -/
def batchesRun (objects : String → Option Int) (bucketRoot : String)
    (keep override : Bool) : List (String × List FileEntry) → List Ev × Bool
  | [] => ([], true)
  | (rel, files) :: rest =>
    match batchRun objects bucketRoot keep override rel files with
    | (evs, true) =>
      let (evs2, ok2) := batchesRun objects bucketRoot keep override rest
      (evs ++ evs2, ok2)
    | (evs, false) => (evs, false)

/-- uploadFiles from variant C over the targets in list order.  Each
target is walked (batches supplied per target, since the walk helper is
not among the sources); after a fully successful walk with keep false the
target's resolved path is removed recursively; a failed upload aborts the
whole run before any further work. -/
def uploadFilesC (objects : String → Option Int) (bucketRoot : String) :
    List (PathRecord × List (String × List FileEntry)) → List Ev × Bool
  | [] => ([], true)
  | (r, batches) :: rest =>
    match batchesRun objects bucketRoot r.keep r.override batches with
    | (evs, true) =>
      let cleanup :=
        if r.keep then [] else [Ev.rmTree (joinPath r.rootPath r.filePath)]
      let (evs2, ok2) := uploadFilesC objects bucketRoot rest
      (evs ++ cleanup ++ evs2, ok2)
    | (evs, false) => (evs, false)

/-- The astro:build:done hook of variant C: an explicit enable=false logs
and returns; otherwise the client is created and the connectivity check
(HeadBucket) issued, then the configured paths are validated and resolved,
then uploadFiles runs.  The walk results are supplied per resolved record;
remote listing contents are supplied as a lookup. -/
def hookC (enable : Option Bool) (headOk : Bool) (dirPathname bucketRoot : String)
    (paths : List PathSpec) (objects : String → Option Int)
    (walkRes : PathRecord → List (String × List FileEntry)) : RunResult :=
  if enable == some false then
    ⟨[.logLine "Skip uploading the build assets to S3 storage."], none⟩
  else if !headOk then ⟨[.clientCreate, .headBucket], some "connectivity"⟩
  else
    match resolvePathsC dirPathname paths with
    | .error msg => ⟨[.clientCreate, .headBucket], some msg⟩
    | .ok recs =>
      match uploadFilesC objects bucketRoot (recs.map (fun r => (r, walkRes r))) with
      | (evs, true) => ⟨[.clientCreate, .headBucket] ++ evs, none⟩
      | (evs, false) => ⟨[.clientCreate, .headBucket] ++ evs, some "upload failed"⟩

mutual
/-- uploadFile from src/index.ts (variant A): a file is checked through
Uploader.isExist and uploaded when that returns false; a directory is
listed, dot-entries skipped, and every remaining entry recursed into.
Uploads are sequential, so a failed put aborts before anything else. -/
def uploadFileARun (remote : String → Option Metadata) (override : Bool) :
    FsNode → String → List Ev × Bool
  | .file size putOk, cur =>
    let key := normalizePath cur
    match isExistA (remote key) key size override with
    | (true, evs) => (evs, true)
    | (false, evs) =>
      if putOk then (evs ++ [.readLocal cur, .putObj key], true)
      else (evs ++ [.readLocal cur, .putFail key], false)
  | .dir entries, cur => uploadEntriesARun remote override entries cur
/-- The directory branch of variant A's uploadFile over one listing. -/
def uploadEntriesARun (remote : String → Option Metadata) (override : Bool) :
    Entries → String → List Ev × Bool
  | .nil, _ => ([], true)
  | .cons name child rest, cur =>
    if strStartsWith name "." then uploadEntriesARun remote override rest cur
    else
      match uploadFileARun remote override child (joinPath cur name) with
      | (evs, true) =>
        let (evs2, ok2) := uploadEntriesARun remote override rest cur
        (evs ++ evs2, ok2)
      | (evs, false) => (evs, false)
end

/-- The per-path loop of variant A's hook: upload the target, then, when
keep is false, remove the target's local subtree; an upload failure
propagates out of the loop before the removal is reached. -/
def hookALoop (remote : String → Option Metadata) (override keep : Bool)
    (dirPathname : String) : List (String × FsNode) → List Ev × Option String
  | [] => ([], none)
  | (current, tree) :: rest =>
    match uploadFileARun remote override tree current with
    | (evs, true) =>
      let cleanup := if keep then [] else [Ev.rmTree (joinPath dirPathname current)]
      let (evs2, err) := hookALoop remote override keep dirPathname rest
      (evs ++ cleanup ++ evs2, err)
    | (evs, false) => (evs, some "upload failed")

/-- The astro:build:done hook of variant A (src/index.ts): validate
options, create the operator, run the connectivity check, then the
per-path loop.  There is no parent-directory validation in this variant. -/
def hookA (remote : String → Option Metadata) (override keep checkOk : Bool)
    (dirPathname : String) (targets : List (String × FsNode)) : RunResult :=
  if !checkOk then ⟨[.checkConn], some "connectivity"⟩
  else
    match hookALoop remote override keep dirPathname targets with
    | (evs, err) => ⟨.checkConn :: evs, err⟩

/-- A resolved per-path record in variant B (part_002 opendal). -/
structure ResolvedPathB where
  path : String
  recursive : Bool
  keep : Bool
  override : Bool
deriving DecidableEq, Repr

/-- The outcome of S3Options.parse in variant B, restricted to the fields
the hook branches on. -/
structure ParsedOptionsB where
  enable : Bool
  paths : List ResolvedPathB
deriving DecidableEq, Repr

/-- A zod issue: a min-length violation or the custom issue added by the
superRefine on S3Options. -/
inductive ZodIssue where
  | tooSmall (field : String)
  | custom (fatal : Bool) (message : String)
deriving DecidableEq, Repr

mutual
/-- uploadFile from the part_002 opendal variant (variant B): a file is
checked through Uploader.isExist (which may delete or rethrow) and
uploaded when that returns false; afterwards, with keep false and
recursive false, the file itself is removed.  A directory is listed,
dot-entries skipped, and an entry recursed into when the target is
recursive or the entry is not a directory. -/
def uploadFileBRun (statO : String → Except OpdError Metadata)
    (root : String) (override keep recursive : Bool) :
    FsNode → String → List Ev × Option String
  | .file size putOk, cur =>
    let key := normalizePath (joinPath root cur)
    match isExistB (statO key) key size override with
    | (.error _, evs) => (evs, some "stat failed")
    | (.ok true, evs) =>
      (evs ++ (if !keep && !recursive then [Ev.rmTree cur] else []), none)
    | (.ok false, evs) =>
      if putOk then
        (evs ++ [.readLocal cur, .putObj key]
             ++ (if !keep && !recursive then [Ev.rmTree cur] else []), none)
      else (evs ++ [.readLocal cur, .putFail key], some "upload failed")
  | .dir entries, cur =>
    uploadEntriesBRun statO root override keep recursive entries cur
/-- The directory branch of variant B's uploadFile over one listing. -/
def uploadEntriesBRun (statO : String → Except OpdError Metadata)
    (root : String) (override keep recursive : Bool) :
    Entries → String → List Ev × Option String
  | .nil, _ => ([], none)
  | .cons name child rest, cur =>
    if strStartsWith name "." then
      uploadEntriesBRun statO root override keep recursive rest cur
    else if recursive || !child.isDir then
      match uploadFileBRun statO root override keep recursive child (joinPath cur name) with
      | (evs, some e) => (evs, some e)
      | (evs, none) =>
        let (evs2, err) := uploadEntriesBRun statO root override keep recursive rest cur
        (evs ++ evs2, err)
    else uploadEntriesBRun statO root override keep recursive rest cur
end

/-- The per-path loop of variant B's hook: upload the target, then, with
keep false and recursive true, remove the target's resolved subtree. -/
def hookBLoop (statO : String → Except OpdError Metadata) (dirPathname : String)
    (tree : String → FsNode) : List ResolvedPathB → List Ev × Option String
  | [] => ([], none)
  | current :: rest =>
    match uploadFileBRun statO dirPathname current.override current.keep
        current.recursive (tree current.path) current.path with
    | (evs, some e) => (evs, some e)
    | (evs, none) =>
      let cleanup :=
        if !current.keep && current.recursive
        then [Ev.rmTree (joinPath dirPathname current.path)] else []
      let (evs2, err) := hookBLoop statO dirPathname tree rest
      (evs ++ cleanup ++ evs2, err)

/-- The astro:build:done hook of variant B (part_002 opendal): options are
parsed first (the zod parse is modelled by its outcome); with enable
false the hook warns and returns before the operator is created;
otherwise the operator is created, the connectivity check runs, then the
per-path loop. -/
def hookB (parsed : Except ZodIssue ParsedOptionsB)
    (statO : String → Except OpdError Metadata) (checkOk : Bool)
    (dirPathname : String) (tree : String → FsNode) : RunResult :=
  match parsed with
  | .error _ => ⟨[.logLine "Uploader options validation error"], some "zod"⟩
  | .ok p =>
    if !p.enable then ⟨[.logLine "Skip the astro uploader."], none⟩
    else if !checkOk then ⟨[.checkConn], some "connectivity"⟩
    else
      match hookBLoop statO dirPathname tree p.paths with
      | (evs, err) => ⟨.checkConn :: evs, err⟩

/-- The region resolution of S3Options: region is a min(1) string
defaulting to auto; none models an absent field, and a supplied empty
string violates the min(1) check. -/
def resolveRegion : Option String → Option String
  | none => some "auto"
  | some r => if 1 ≤ r.length then some r else none

/-- The fatal custom issue added by the superRefine on S3Options. -/
def regionEndpointIssue : ZodIssue :=
  .custom true "either the region or the endpoint should be provided"

/-- The region/endpoint fragment of S3Options.parse (identical in
src/index.ts and the part_002 opendal variant): resolve the region with
its default, then fail with the fatal custom issue exactly when the
resolved region is auto and no endpoint was given. -/
def s3RegionEndpointCheck (region endpoint : Option String) :
    Except ZodIssue String :=
  match resolveRegion region with
  | none => .error (.tooSmall "region")
  | some r =>
    if r == "auto" && endpoint.isNone then .error regionEndpointIssue
    else .ok r

/-- Whether an event is a rejected PutObject. -/
def Ev.isFailedPut : Ev → Bool
  | .putFail _ => true
  | _ => false

/-- Whether an event removes local data (unlink or recursive removal). -/
def Ev.isLocalRemoval : Ev → Bool
  | .unlink _ => true
  | .rmTree _ => true
  | _ => false

/-- Whether an event deletes a remote object. -/
def Ev.isRemoteDelete : Ev → Bool
  | .deleteObj _ => true
  | _ => false

/-- A trace with no local removal at all. -/
def removalFree (tr : List Ev) : Bool := tr.all (fun e => !e.isLocalRemoval)

/-- A trace with no failed put at all. -/
def putFailFree (tr : List Ev) : Bool := tr.all (fun e => !e.isFailedPut)

/-- No local removal occurs anywhere after a failed upload: at every tail
of the trace headed by a failed put, the remainder holds no unlink and no
recursive local removal. -/
def noRemAfterFail : List Ev → Bool
  | [] => true
  | e :: rest => (!e.isFailedPut || removalFree rest) && noRemAfterFail rest

/-- The put issued for a file never deletes a remote object. -/
theorem putEv_not_remoteDelete (f : FileEntry) (k : String) :
    (putEv f k).isRemoteDelete = false := by
  unfold putEv
  split <;> rfl

/-- The put issued for a file never removes local data. -/
theorem putEv_not_localRemoval (f : FileEntry) (k : String) :
    (putEv f k).isLocalRemoval = false := by
  unfold putEv
  split <;> rfl

/-- A batch whose chosen files all upload successfully emits the listing
event, the puts, and the unlinks, and completes. -/
theorem batchRun_ok (objects : String → Option Int) (bucketRoot : String)
    (keep override : Bool) (rel : String) (files : List FileEntry)
    (h : ((if override then files else filteredFiles objects files).all
        (fun f => f.putOk)) = true) :
    batchRun objects bucketRoot keep override rel files =
      ((if override then ([] : List Ev)
          else [.listObjects (joinPath bucketRoot rel)])
        ++ (if override then files else filteredFiles objects files).map
            (fun f => putEv f (joinPath (joinPath bucketRoot rel) f.name))
        ++ (if keep then [] else files.map (fun f => Ev.unlink f.path)),
       true) := by
  simp only [batchRun, h, if_true]

/-- A batch with a rejected put emits only the listing event and the puts,
and fails. -/
theorem batchRun_fail (objects : String → Option Int) (bucketRoot : String)
    (keep override : Bool) (rel : String) (files : List FileEntry)
    (h : ((if override then files else filteredFiles objects files).all
        (fun f => f.putOk)) = false) :
    batchRun objects bucketRoot keep override rel files =
      ((if override then ([] : List Ev)
          else [.listObjects (joinPath bucketRoot rel)])
        ++ (if override then files else filteredFiles objects files).map
            (fun f => putEv f (joinPath (joinPath bucketRoot rel) f.name)),
       false) := by
  simp only [batchRun, h, Bool.false_eq_true, if_false]

/-- No event of a batch deletes a remote object. -/
theorem batchRun_no_remoteDelete (objects : String → Option Int)
    (bucketRoot : String) (keep override : Bool) (rel : String)
    (files : List FileEntry) :
    ∀ e ∈ (batchRun objects bucketRoot keep override rel files).1,
      e.isRemoteDelete = false := by
  intro e he
  by_cases hc : ((if override then files else filteredFiles objects files).all
      (fun f => f.putOk)) = true
  · rw [batchRun_ok objects bucketRoot keep override rel files hc] at he
    simp only [List.mem_append] at he
    rcases he with (he | he) | he
    · split at he
      · simp at he
      · simp only [List.mem_singleton] at he
        rw [he]
        rfl
    · simp only [List.mem_map] at he
      obtain ⟨f, _, hf⟩ := he
      rw [← hf]
      exact putEv_not_remoteDelete f _
    · split at he
      · simp at he
      · simp only [List.mem_map] at he
        obtain ⟨f, _, hf⟩ := he
        rw [← hf]
        rfl
  · rw [batchRun_fail objects bucketRoot keep override rel files
      (by simpa using hc)] at he
    simp only [List.mem_append] at he
    rcases he with he | he
    · split at he
      · simp at he
      · simp only [List.mem_singleton] at he
        rw [he]
        rfl
    · simp only [List.mem_map] at he
      obtain ⟨f, _, hf⟩ := he
      rw [← hf]
      exact putEv_not_remoteDelete f _

/-- C1 counterexample: at remote size 500, local size 800, override false,
the index.ts resolver reports the mismatched object as existing — no
delete is issued and no upload follows — refuting "delete-then-upload
regardless of the override flag" for that cited resolver. -/
theorem c1_counterexample :
    isExistA (some ⟨some 500⟩) "images/logo.png" 800 false
      = (true, [.existQ "images/logo.png", .statQ "images/logo.png"]) := by
  decide

/-- C1 amended: for every key whose remote size differs from the local
size, the part_002 opendal resolver deletes the stale object and reports
upload required for every override value; the index.ts resolver does so
only when override is true — with override false it keeps the mismatched
object and reports it as existing, issuing no delete. -/
theorem c1_size_mismatch_resolution (key : String) (cl size : Int) (ovr : Bool)
    (h : cl ≠ size) :
    isExistB (.ok ⟨some cl⟩) key size ovr
        = (.ok false, [.statQ key, .deleteObj key])
    ∧ isExistA (some ⟨some cl⟩) key size true
        = (false, [.existQ key, .statQ key, .deleteObj key])
    ∧ isExistA (some ⟨some cl⟩) key size false
        = (true, [.existQ key, .statQ key]) := by
  have hb : (cl != size) = true := by simpa using h
  refine ⟨?_, ?_, ?_⟩
  · simp [isExistB, hb]
  · simp [isExistA, hb]
  · simp [isExistA, hb]

/-- C1 witness: the amended resolver theorem applied at remote size 500
and local size 800. -/
theorem c1_size_mismatch_resolution_witness :
    isExistB (.ok ⟨some 500⟩) "images/logo.png" 800 false
        = (.ok false, [.statQ "images/logo.png", .deleteObj "images/logo.png"]) :=
  (c1_size_mismatch_resolution "images/logo.png" 500 800 false (by decide)).1

/-- C2: at the failing input (remote object of the local file's exact
size, override false) the cited code uploads anyway.  index.ts isExist
falls through to false, so uploadFile issues the put; and the part_002
AWS-SDK filter keeps every file because the async callback hands
Array.filter a Promise, which is truthy — even though the value the
callback would resolve to is false for this file. -/
theorem c2_equal_size_no_skip :
    (isExistA (some ⟨some 500⟩) "images/logo.png" 500 false).1 = false
    ∧ Ev.putObj "images/logo.png"
        ∈ (uploadFileARun (fun _ => some ⟨some 500⟩) false
            (.file 500 true) "images/logo.png").1
    ∧ filteredFiles (fun n => if n == "logo.png" then some 500 else none)
        [⟨"logo.png", "dist/images/logo.png", 500, true⟩]
      = [⟨"logo.png", "dist/images/logo.png", 500, true⟩]
    ∧ shouldUploadCallback (fun n => if n == "logo.png" then some 500 else none)
        ⟨"logo.png", "dist/images/logo.png", 500, true⟩ = false := by
  decide

/-- C4 counterexample: with the remote size equal to the local size and
override true, the index.ts resolver reports upload required but issues
no delete at all, refuting "exactly one delete call precedes the
upload". -/
theorem c4_counterexample :
    (isExistA (some ⟨some 500⟩) "images/logo.png" 500 true).1 = false
    ∧ (isExistA (some ⟨some 500⟩) "images/logo.png" 500 true).2.all
        (fun e => !e.isRemoteDelete) = true := by
  decide

/-- C4 amended: for a key whose remote size equals the local size and
override is true, the part_002 opendal resolver deletes the object and
then reports upload required; the index.ts resolver reports upload
required with no preceding delete; and the AWS-SDK override branch
uploads directly, issuing no remote delete. -/
theorem c4_equal_size_override (key : String) (n : Int)
    (objects : String → Option Int) (bucketRoot rel : String) (keep : Bool)
    (files : List FileEntry) :
    isExistB (.ok ⟨some n⟩) key n true
        = (.ok false, [.statQ key, .deleteObj key])
    ∧ isExistA (some ⟨some n⟩) key n true = (false, [.existQ key, .statQ key])
    ∧ (batchRun objects bucketRoot keep true rel files).1.all
        (fun e => !e.isRemoteDelete) = true := by
  refine ⟨by simp [isExistB], by simp [isExistA], ?_⟩
  simp only [List.all_eq_true, Bool.not_eq_true]
  intro e he
  have := batchRun_no_remoteDelete objects bucketRoot keep true rel files e he
  simp [this]

/-- C5: variant B's resolver treats a caught storage error whose message
contains Error: NotFound as the normal does-not-exist signal — it returns
false (upload required) without raising and without a delete — while any
other storage error is rethrown to the caller. -/
theorem c5_notfound_vs_other_errors (key : String) (size : Int) (ovr : Bool) :
    (∀ err : OpdError, msgIncludesNotFound err.msg = true →
        isExistB (.error err) key size ovr = (.ok false, [.statQ key]))
    ∧ (∀ err : OpdError, msgIncludesNotFound err.msg = false →
        isExistB (.error err) key size ovr = (.error err, [.statQ key])) := by
  constructor
  · intro err h
    simp [isExistB, h]
  · intro err h
    simp [isExistB, h]

/-- C5 witness: a NotFound-message error yields false without raising; a
transport-style error propagates. -/
theorem c5_notfound_vs_other_errors_witness :
    isExistB (.error ⟨"Error: NotFound at stat"⟩) "k" 5 false
        = (.ok false, [.statQ "k"])
    ∧ isExistB (.error ⟨"connection reset by peer"⟩) "k" 5 false
        = (.error ⟨"connection reset by peer"⟩, [.statQ "k"]) :=
  ⟨(c5_notfound_vs_other_errors "k" 5 false).1 ⟨"Error: NotFound at stat"⟩ (by decide),
   (c5_notfound_vs_other_errors "k" 5 false).2 ⟨"connection reset by peer"⟩ (by decide)⟩

/-- C9: the S3Options parse fails with the fatal custom issue exactly when
the resolved region is auto and no endpoint is given; since region
defaults to auto, an explicit region auto with no endpoint is rejected,
while any other non-empty region with no endpoint is accepted. -/
theorem c9_region_endpoint_validation (region endpoint : Option String) :
    (s3RegionEndpointCheck region endpoint = .error regionEndpointIssue
      ↔ resolveRegion region = some "auto" ∧ endpoint = none)
    ∧ s3RegionEndpointCheck (some "auto") none = .error regionEndpointIssue
    ∧ (∀ r : String, r ≠ "auto" → 1 ≤ r.length →
        s3RegionEndpointCheck (some r) none = .ok r)
    ∧ resolveRegion none = some "auto" := by
  refine ⟨?_, rfl, ?_, rfl⟩
  · cases hR : resolveRegion region with
    | none => simp [s3RegionEndpointCheck, hR, regionEndpointIssue]
    | some r =>
      by_cases hr : r = "auto"
      · cases endpoint with
        | none => simp [s3RegionEndpointCheck, hR, hr]
        | some e => simp [s3RegionEndpointCheck, hR, hr, regionEndpointIssue]
      · simp [s3RegionEndpointCheck, hR, hr, regionEndpointIssue]
  · intro r hr hlen
    simp [s3RegionEndpointCheck, resolveRegion, hlen, hr]

/-- C9 witness: region auto without endpoint is rejected; region
us-east-1 without endpoint is accepted. -/
theorem c9_region_endpoint_validation_witness :
    s3RegionEndpointCheck (some "us-east-1") none = .ok "us-east-1" :=
  (c9_region_endpoint_validation (some "us-east-1") none).2.2.1 "us-east-1"
    (by decide) (by decide)

/-- includesChar decides membership. -/
theorem includesChar_iff (c : Char) (cs : List Char) :
    includesChar c cs = true ↔ c ∈ cs := by
  simp only [includesChar, List.any_eq_true, beq_iff_eq]
  constructor
  · rintro ⟨x, hx, rfl⟩
    exact hx
  · intro h
    exact ⟨c, h, rfl⟩

/-- No piece produced by splitting on a separator contains it. -/
theorem splitOnChar_not_mem (sep : Char) (l : List Char) :
    ∀ w ∈ splitOnChar sep l, sep ∉ w := by
  induction l with
  | nil =>
    intro w hw
    simp only [splitOnChar, List.mem_singleton] at hw
    rw [hw]
    simp
  | cons c cs ih =>
    intro w hw
    simp only [splitOnChar] at hw
    split at hw
    next heq =>
      simp only [List.mem_singleton] at hw
      rw [hw]
      simp
    next w' ws heq =>
      split at hw
      next hc =>
        rcases List.mem_cons.mp hw with rfl | hw2
        · simp
        · exact ih w (heq ▸ hw2)
      next hc =>
        rcases List.mem_cons.mp hw with rfl | hw2
        · intro hmem
          rcases List.mem_cons.mp hmem with heqc | hmem2
          · exact hc (beq_iff_eq.mpr heqc.symm)
          · exact ih w' (heq ▸ List.mem_cons_self w' ws) hmem2
        · exact ih w (heq ▸ List.mem_cons_of_mem _ hw2)

/-- Joining separator-free pieces with a separator-free glue stays free of
the character. -/
theorem not_mem_joinWith (x : Char) (sepL : List Char) :
    ∀ (ws : List (List Char)), x ∉ sepL → (∀ w ∈ ws, x ∉ w) →
      x ∉ joinWith sepL ws
  | [], _, _ => by simp [joinWith]
  | [w], _, h => by simpa [joinWith] using h w (by simp)
  | w :: v :: ws, hx, h => by
    simp only [joinWith, List.mem_append]
    push_neg
    refine ⟨⟨h w (by simp), hx⟩, ?_⟩
    exact not_mem_joinWith x sepL (v :: ws) hx
      (fun u hu => h u (List.mem_cons_of_mem _ hu))

/-- The normalized character list never contains the Windows separator. -/
theorem normalizeChars_no_winSep (cs : List Char) :
    winSep ∉ normalizeChars cs := by
  unfold normalizeChars
  split
  next h =>
    apply not_mem_joinWith
    · simp [winSep, posixSep]
    · exact splitOnChar_not_mem winSep cs
  next h =>
    intro hmem
    exact h ((includesChar_iff winSep cs).mpr hmem)

/-- Normalizing twice is normalizing once. -/
theorem normalizeChars_idem (cs : List Char) :
    normalizeChars (normalizeChars cs) = normalizeChars cs := by
  have h : includesChar winSep (normalizeChars cs) = false := by
    cases hb : includesChar winSep (normalizeChars cs) with
    | false => rfl
    | true => exact absurd ((includesChar_iff _ _).mp hb) (normalizeChars_no_winSep cs)
  have hunf : normalizeChars (normalizeChars cs)
      = if includesChar winSep (normalizeChars cs) then
          joinWith [posixSep] (splitOnChar winSep (normalizeChars cs))
        else normalizeChars cs := rfl
  rw [hunf, h]
  simp

/-- C8: normalizePath, a pure function of its input, is idempotent, and
its output never contains a backslash (the Windows path separator). -/
theorem c8_normalize_idempotent_no_backslash (p : String) :
    normalizePath (normalizePath p) = normalizePath p
    ∧ winSep ∉ (normalizePath p).data := by
  constructor
  · show (⟨normalizeChars (normalizeChars p.data)⟩ : String) = ⟨normalizeChars p.data⟩
    exact congrArg String.mk (normalizeChars_idem p.data)
  · show winSep ∉ normalizeChars p.data
    exact normalizeChars_no_winSep p.data

mutual
/-- Recursive walking visits exactly the deep non-hidden files. -/
theorem walkB_deep : ∀ (t : FsNode) (cur : String),
    walkB t cur true = deepFiles t cur
  | .file s p, cur => by
    simp [walkB, deepFiles]
  | .dir es, cur => by
    simp only [walkB, deepFiles]
    exact walkBEntries_deep es cur
/-- walkB_deep over one directory listing. -/
theorem walkBEntries_deep : ∀ (es : Entries) (cur : String),
    walkBEntries es cur true = deepFilesEntries es cur
  | .nil, cur => by
    simp [walkBEntries, deepFilesEntries]
  | .cons n c rest, cur => by
    simp only [walkBEntries, deepFilesEntries]
    rw [walkBEntries_deep rest cur]
    by_cases h : strStartsWith n "." = true
    · simp [h]
    · simp [h, walkB_deep c (joinPath cur n)]
end

/-- Non-recursive walking of a listing visits exactly its direct
non-hidden file children. -/
theorem walkBEntries_shallow : ∀ (es : Entries) (cur : String),
    walkBEntries es cur false = shallowFiles es cur
  | .nil, _ => by
    simp [walkBEntries, shallowFiles]
  | .cons n c rest, cur => by
    simp only [walkBEntries, shallowFiles]
    rw [walkBEntries_shallow rest cur]
    by_cases h : strStartsWith n "." = true
    · cases c <;> simp [h]
    · cases c with
      | file s p => simp [h, walkB, FsNode.isDir]
      | dir es2 => simp [h, FsNode.isDir]

mutual
/-- No walk result is a directory node. -/
theorem walkB_noDir : ∀ (t : FsNode) (cur : String) (r : Bool),
    (walkB t cur r).all (fun e => !e.2.isDir) = true
  | .file s p, cur, r => by
    simp [walkB, FsNode.isDir]
  | .dir es, cur, r => by
    simp only [walkB]
    exact walkBEntries_noDir es cur r
/-- walkB_noDir over one directory listing. -/
theorem walkBEntries_noDir : ∀ (es : Entries) (cur : String) (r : Bool),
    (walkBEntries es cur r).all (fun e => !e.2.isDir) = true
  | .nil, _, _ => by
    simp [walkBEntries]
  | .cons n c rest, cur, r => by
    simp only [walkBEntries, List.all_append]
    rw [walkBEntries_noDir rest cur r, Bool.and_true]
    by_cases h : strStartsWith n "." = true
    · simp [h]
    · by_cases h2 : (r || !c.isDir) = true
      · simp [h, h2, walkB_noDir c (joinPath cur n) r]
      · simp [h, h2]
end

/-- C6: walking a directory target with recursive false yields exactly the
non-hidden direct-child files (never a file of a subdirectory); walking
with recursive true yields every file whose path crosses no hidden name,
at every depth; and in both modes dot-entries are skipped and no
directory node is ever yielded as an upload candidate. -/
theorem c6_walk_shallow_deep_nodir (es : Entries) (t : FsNode) (cur : String)
    (r : Bool) :
    walkB (.dir es) cur false = shallowFiles es cur
    ∧ walkB t cur true = deepFiles t cur
    ∧ (walkB t cur r).all (fun e => !e.2.isDir) = true := by
  refine ⟨?_, walkB_deep t cur, walkB_noDir t cur r⟩
  simp only [walkB]
  exact walkBEntries_shallow es cur

/-- Appending after a failure-free prefix preserves the ordering
discipline. -/
theorem noRemAfterFail_append : ∀ (a : List Ev), putFailFree a = true →
    ∀ (b : List Ev), noRemAfterFail b = true → noRemAfterFail (a ++ b) = true
  | [], _, b, hb => by simpa using hb
  | e :: rest, ha, b, hb => by
    simp only [putFailFree, List.all_cons, Bool.and_eq_true] at ha
    simp only [List.cons_append, noRemAfterFail, Bool.and_eq_true]
    exact ⟨by simp [ha.1], noRemAfterFail_append rest ha.2 b hb⟩

/-- A removal-free trace satisfies the ordering discipline. -/
theorem noRemAfterFail_of_removalFree : ∀ (l : List Ev), removalFree l = true →
    noRemAfterFail l = true
  | [], _ => rfl
  | e :: rest, h => by
    simp only [removalFree, List.all_cons, Bool.and_eq_true] at h
    simp only [noRemAfterFail, Bool.and_eq_true]
    refine ⟨?_, noRemAfterFail_of_removalFree rest h.2⟩
    have : removalFree rest = true := h.2
    simp [this]

/-- A completed batch contains no failed put. -/
theorem batchRun_snd_putFailFree (objects : String → Option Int)
    (bucketRoot : String) (keep override : Bool) (rel : String)
    (files : List FileEntry) :
    (batchRun objects bucketRoot keep override rel files).2 = true →
    putFailFree (batchRun objects bucketRoot keep override rel files).1 = true := by
  intro h2
  by_cases hc : ((if override then files else filteredFiles objects files).all
      (fun f => f.putOk)) = true
  · rw [batchRun_ok objects bucketRoot keep override rel files hc]
    simp only [putFailFree, List.all_append, Bool.and_eq_true]
    refine ⟨⟨?_, ?_⟩, ?_⟩
    · split <;> simp [Ev.isFailedPut]
    · rw [List.all_eq_true]
      intro e he
      rw [List.mem_map] at he
      obtain ⟨f, hf, rfl⟩ := he
      have hp : f.putOk = true := List.all_eq_true.mp hc f hf
      simp [putEv, hp, Ev.isFailedPut]
    · split
      · simp
      · rw [List.all_eq_true]
        intro e he
        rw [List.mem_map] at he
        obtain ⟨f, hf, rfl⟩ := he
        simp [Ev.isFailedPut]
  · exfalso
    rw [batchRun_fail objects bucketRoot keep override rel files
      (by simpa using hc)] at h2
    simp at h2

/-- A failed batch performs no local removal. -/
theorem batchRun_snd_removalFree (objects : String → Option Int)
    (bucketRoot : String) (keep override : Bool) (rel : String)
    (files : List FileEntry) :
    (batchRun objects bucketRoot keep override rel files).2 = false →
    removalFree (batchRun objects bucketRoot keep override rel files).1 = true := by
  intro h2
  by_cases hc : ((if override then files else filteredFiles objects files).all
      (fun f => f.putOk)) = true
  · exfalso
    rw [batchRun_ok objects bucketRoot keep override rel files hc] at h2
    simp at h2
  · rw [batchRun_fail objects bucketRoot keep override rel files
      (by simpa using hc)]
    simp only [removalFree, List.all_append, Bool.and_eq_true]
    constructor
    · split <;> simp [Ev.isLocalRemoval]
    · rw [List.all_eq_true]
      intro e he
      rw [List.mem_map] at he
      obtain ⟨f, hf, rfl⟩ := he
      simp [putEv_not_localRemoval]

/-- The batch loop of one target never removes local data after a failed
put, and a fully successful loop contains no failed put at all. -/
theorem batchesRun_safe (objects : String → Option Int) (bucketRoot : String)
    (keep override : Bool) :
    ∀ (bs : List (String × List FileEntry)),
      noRemAfterFail (batchesRun objects bucketRoot keep override bs).1 = true
      ∧ ((batchesRun objects bucketRoot keep override bs).2 = true →
          putFailFree (batchesRun objects bucketRoot keep override bs).1 = true)
  | [] => by
    constructor
    · rfl
    · intro
      rfl
  | (rel, files) :: rest => by
    obtain ⟨ih1, ih2⟩ := batchesRun_safe objects bucketRoot keep override rest
    rcases hres : batchesRun objects bucketRoot keep override rest with ⟨evs2, ok2⟩
    rw [hres] at ih1 ih2
    have hpf := batchRun_snd_putFailFree objects bucketRoot keep override rel files
    have hrf := batchRun_snd_removalFree objects bucketRoot keep override rel files
    rcases hbr : batchRun objects bucketRoot keep override rel files with ⟨evs, ok⟩
    rw [hbr] at hpf hrf
    cases ok with
    | true =>
      simp only [batchesRun, hbr, hres]
      have hevs : putFailFree evs = true := hpf rfl
      constructor
      · exact noRemAfterFail_append evs hevs evs2 ih1
      · intro hok
        simp only [putFailFree, List.all_append, Bool.and_eq_true]
        exact ⟨hevs, ih2 hok⟩
    | false =>
      simp only [batchesRun, hbr]
      constructor
      · exact noRemAfterFail_of_removalFree evs (hrf rfl)
      · intro hok
        cases hok

/-- uploadFiles of variant C never removes local data after a failed put,
and a fully successful run contains no failed put at all. -/
theorem uploadFilesC_safe (objects : String → Option Int) (bucketRoot : String) :
    ∀ (rs : List (PathRecord × List (String × List FileEntry))),
      noRemAfterFail (uploadFilesC objects bucketRoot rs).1 = true
      ∧ ((uploadFilesC objects bucketRoot rs).2 = true →
          putFailFree (uploadFilesC objects bucketRoot rs).1 = true)
  | [] => by
    constructor
    · rfl
    · intro
      rfl
  | (r, batches) :: rest => by
    obtain ⟨ih1, ih2⟩ := uploadFilesC_safe objects bucketRoot rest
    rcases hres : uploadFilesC objects bucketRoot rest with ⟨evs2, ok2⟩
    rw [hres] at ih1 ih2
    obtain ⟨hb1, hb2⟩ := batchesRun_safe objects bucketRoot r.keep r.override batches
    rcases hbr : batchesRun objects bucketRoot r.keep r.override batches with ⟨evs, ok⟩
    rw [hbr] at hb1 hb2
    cases ok with
    | true =>
      simp only [uploadFilesC, hbr, hres]
      have hevs : putFailFree evs = true := hb2 rfl
      have hclean : putFailFree
          (evs ++ (if r.keep then [] else [Ev.rmTree (joinPath r.rootPath r.filePath)]))
            = true := by
        simp only [putFailFree, List.all_append, Bool.and_eq_true]
        refine ⟨hevs, ?_⟩
        split <;> simp [Ev.isFailedPut]
      constructor
      · exact noRemAfterFail_append _ hclean _ ih1
      · intro hok
        simp only [putFailFree, List.all_append, Bool.and_eq_true]
        simp only [putFailFree, List.all_append, Bool.and_eq_true] at hclean
        exact ⟨hclean, ih2 hok⟩
    | false =>
      simp only [uploadFilesC, hbr]
      constructor
      · exact hb1
      · intro hok
        cases hok

/-- The resolver of variant A issues neither local removals nor failed
puts. -/
theorem isExistA_trace_clean (remote : Option Metadata) (key : String)
    (size : Int) (override : Bool) :
    removalFree (isExistA remote key size override).2 = true
    ∧ putFailFree (isExistA remote key size override).2 = true := by
  rcases remote with _ | ⟨_ | cl⟩
  · simp [isExistA, removalFree, putFailFree, Ev.isLocalRemoval, Ev.isFailedPut]
  · simp [isExistA, removalFree, putFailFree, Ev.isLocalRemoval, Ev.isFailedPut]
  · simp only [isExistA]
    split_ifs <;>
      simp [removalFree, putFailFree, Ev.isLocalRemoval, Ev.isFailedPut]

mutual
/-- Variant A's uploadFile performs no local removal at all, and a
successful call contains no failed put. -/
theorem uploadFileARun_safe : ∀ (remote : String → Option Metadata)
    (override : Bool) (t : FsNode) (cur : String),
    removalFree (uploadFileARun remote override t cur).1 = true
    ∧ ((uploadFileARun remote override t cur).2 = true →
        putFailFree (uploadFileARun remote override t cur).1 = true)
  | remote, override, .file size putOk, cur => by
    have hclean := isExistA_trace_clean (remote (normalizePath cur))
      (normalizePath cur) size override
    rcases hia : isExistA (remote (normalizePath cur)) (normalizePath cur)
        size override with ⟨ex, evs⟩
    rw [hia] at hclean
    cases ex with
    | true =>
      simp only [uploadFileARun, hia]
      exact ⟨hclean.1, fun _ => hclean.2⟩
    | false =>
      cases putOk with
      | true =>
        simp only [uploadFileARun, hia, if_true]
        constructor
        · simp only [removalFree, List.all_append, Bool.and_eq_true]
          exact ⟨hclean.1, by simp [Ev.isLocalRemoval]⟩
        · intro _
          simp only [putFailFree, List.all_append, Bool.and_eq_true]
          exact ⟨hclean.2, by simp [Ev.isFailedPut]⟩
      | false =>
        simp only [uploadFileARun, hia, Bool.false_eq_true, if_false]
        constructor
        · simp only [removalFree, List.all_append, Bool.and_eq_true]
          exact ⟨hclean.1, by simp [Ev.isLocalRemoval]⟩
        · intro hok
          cases hok
  | remote, override, .dir entries, cur => by
    simp only [uploadFileARun]
    exact uploadEntriesARun_safe remote override entries cur
/-- uploadFileARun_safe over one directory listing. -/
theorem uploadEntriesARun_safe : ∀ (remote : String → Option Metadata)
    (override : Bool) (es : Entries) (cur : String),
    removalFree (uploadEntriesARun remote override es cur).1 = true
    ∧ ((uploadEntriesARun remote override es cur).2 = true →
        putFailFree (uploadEntriesARun remote override es cur).1 = true)
  | remote, override, .nil, cur => ⟨rfl, fun _ => rfl⟩
  | remote, override, .cons name child rest, cur => by
    obtain ⟨ihc1, ihc2⟩ := uploadFileARun_safe remote override child (joinPath cur name)
    obtain ⟨ihr1, ihr2⟩ := uploadEntriesARun_safe remote override rest cur
    by_cases h : strStartsWith name "." = true
    · simp only [uploadEntriesARun, h, if_true]
      exact ⟨ihr1, ihr2⟩
    · rcases hfr : uploadFileARun remote override child (joinPath cur name)
          with ⟨evs, ok⟩
      rw [hfr] at ihc1 ihc2
      rcases hrr : uploadEntriesARun remote override rest cur with ⟨evs2, ok2⟩
      rw [hrr] at ihr1 ihr2
      cases ok with
      | true =>
        simp only [uploadEntriesARun, h, hfr, hrr, Bool.false_eq_true, if_false]
        constructor
        · simp only [removalFree, List.all_append, Bool.and_eq_true]
          exact ⟨ihc1, ihr1⟩
        · intro hok
          simp only [putFailFree, List.all_append, Bool.and_eq_true]
          exact ⟨ihc2 rfl, ihr2 hok⟩
      | false =>
        simp only [uploadEntriesARun, h, hfr, Bool.false_eq_true, if_false]
        exact ⟨ihc1, fun hok => by cases hok⟩
end

/-- The per-path loop of variant A's hook never removes local data after a
failed put: the removal of a target is reached only when its whole upload
succeeded, and a failure aborts the loop. -/
theorem hookALoop_safe : ∀ (remote : String → Option Metadata)
    (override keep : Bool) (dir : String) (ts : List (String × FsNode)),
    noRemAfterFail (hookALoop remote override keep dir ts).1 = true
  | _, _, _, _, [] => rfl
  | remote, override, keep, dir, (current, tree) :: rest => by
    obtain ⟨h1, h2⟩ := uploadFileARun_safe remote override tree current
    have ihr := hookALoop_safe remote override keep dir rest
    rcases hup : uploadFileARun remote override tree current with ⟨evs, ok⟩
    rw [hup] at h1 h2
    rcases hrr : hookALoop remote override keep dir rest with ⟨evs2, err⟩
    rw [hrr] at ihr
    cases ok with
    | true =>
      simp only [hookALoop, hup, hrr]
      apply noRemAfterFail_append
      · simp only [putFailFree, List.all_append, Bool.and_eq_true]
        refine ⟨h2 rfl, ?_⟩
        split <;> simp [Ev.isFailedPut]
      · exact ihr
    | false =>
      simp only [hookALoop, hup]
      exact noRemAfterFail_of_removalFree evs h1

/-- The whole variant A hook never removes local data after a failed put. -/
theorem hookA_noRemAfterFail (remote : String → Option Metadata)
    (override keep checkOk : Bool) (dir : String)
    (ts : List (String × FsNode)) :
    noRemAfterFail (hookA remote override keep checkOk dir ts).events = true := by
  cases checkOk with
  | false => rfl
  | true =>
    have hsafe := hookALoop_safe remote override keep dir ts
    rcases hl : hookALoop remote override keep dir ts with ⟨evs, err⟩
    rw [hl] at hsafe
    simp only [hookA, Bool.not_true, Bool.false_eq_true, if_false, hl]
    simp [noRemAfterFail, Ev.isFailedPut, hsafe]

/-- C7: within a run, once an upload for some file of a target has failed,
no local deletion (unlink or recursive removal) is performed afterwards:
the trace of the index.ts hook and the trace of the AWS-SDK uploadFiles
both satisfy the no-removal-after-failure discipline, since a rejected
put aborts before the unlink/removal lines are reached. -/
theorem c7_no_removal_after_failed_upload (remote : String → Option Metadata)
    (override keep checkOk : Bool) (dirPathname bucketRoot : String)
    (targets : List (String × FsNode)) (objects : String → Option Int)
    (rs : List (PathRecord × List (String × List FileEntry))) :
    noRemAfterFail (hookA remote override keep checkOk dirPathname targets).events = true
    ∧ noRemAfterFail (uploadFilesC objects bucketRoot rs).1 = true :=
  ⟨hookA_noRemAfterFail remote override keep checkOk dirPathname targets,
   (uploadFilesC_safe objects bucketRoot rs).1⟩

/-- Resolving the configured paths fails with the parent-directory error
whenever some entry's path starts with two dots. -/
theorem resolvePathsC_error_of_parent (dir : String) :
    ∀ (ps : List PathSpec),
      (∃ p ∈ ps, strStartsWith (PathSpec.pathOf p) ".." = true) →
      resolvePathsC dir ps = .error parentDirMsg
  | [] => by
    rintro ⟨p, hp, _⟩
    cases hp
  | spec :: rest => by
    rintro ⟨p, hp, hstart⟩
    rcases List.mem_cons.mp hp with rfl | hp2
    · cases p with
      | str q =>
        simp only [PathSpec.pathOf] at hstart
        simp [resolvePathsC, hstart]
      | obj q r k o =>
        simp only [PathSpec.pathOf] at hstart
        simp [resolvePathsC, hstart]
    · have ih := resolvePathsC_error_of_parent dir rest ⟨p, hp2, hstart⟩
      cases spec with
      | str q =>
        by_cases hq : strStartsWith q ".." = true
        · simp [resolvePathsC, hq]
        · simp [resolvePathsC, hq, ih]
      | obj q r k o =>
        by_cases hq : strStartsWith q ".." = true
        · simp [resolvePathsC, hq]
        · simp [resolvePathsC, hq, ih]

/-- C3 counterexample: with configured path ../secrets, the AWS-SDK hook
issues the connectivity check (a Storage Client call) before aborting,
and the index.ts hook performs no parent-directory validation at all — it
completes the run and uploads the parent-directory file.  Both refute
"aborts before any call to the Storage Client". -/
theorem c3_counterexample :
    Ev.headBucket ∈ (hookC none true "/dist" "" [.str "../secrets"]
      (fun _ => none) (fun _ => [])).events
    ∧ (hookC none true "/dist" "" [.str "../secrets"]
      (fun _ => none) (fun _ => [])).error = some parentDirMsg
    ∧ (hookA (fun _ => none) false false true "/dist"
        [("../secrets", .file 5 true)]).error = none
    ∧ Ev.putObj "../secrets" ∈ (hookA (fun _ => none) false false true "/dist"
        [("../secrets", .file 5 true)]).events := by
  decide

/-- C3 amended: in the AWS-SDK variant, whenever some configured path
begins with two dots, the run aborts with the parent-directory error
before any stat, list, put, delete, or local file operation — but after
the client has been created and the connectivity check issued, which are
the only events of the aborted run.  (The opendal variants perform no
such validation.) -/
theorem c3_parent_dir_abort (enable : Option Bool)
    (dirPathname bucketRoot : String) (paths : List PathSpec)
    (objects : String → Option Int)
    (walkRes : PathRecord → List (String × List FileEntry))
    (hen : enable ≠ some false)
    (hp : ∃ p ∈ paths, strStartsWith (PathSpec.pathOf p) ".." = true) :
    hookC enable true dirPathname bucketRoot paths objects walkRes
      = ⟨[.clientCreate, .headBucket], some parentDirMsg⟩ := by
  have hres := resolvePathsC_error_of_parent dirPathname paths hp
  have hen' : (enable == some false) = false := by
    cases henb : (enable == some false) with
    | false => rfl
    | true => exact absurd (eq_of_beq henb) hen
  simp [hookC, hen', hres]

/-- C3 witness: the amended theorem applied to the configured path
../secrets. -/
theorem c3_parent_dir_abort_witness :
    hookC none true "/dist" "" [.str "../secrets"] (fun _ => none) (fun _ => [])
      = ⟨[.clientCreate, .headBucket], some parentDirMsg⟩ :=
  c3_parent_dir_abort none "/dist" "" [.str "../secrets"] (fun _ => none)
    (fun _ => []) (by decide) ⟨.str "../secrets", by decide, by decide⟩

/-- C10: with the enable flag false, both hooks return right after the
skip log line: the resulting trace holds exactly one log event, so no
client is created, no network call (headBucket, checkConn, stat, list,
put, delete) is issued, and no local file is read, unlinked, or
removed. -/
theorem c10_enable_false_frame (enable : Option Bool) (headOk : Bool)
    (dirPathname bucketRoot : String) (paths : List PathSpec)
    (objects : String → Option Int)
    (walkRes : PathRecord → List (String × List FileEntry))
    (statO : String → Except OpdError Metadata) (checkOk : Bool)
    (tree : String → FsNode) (p : ParsedOptionsB)
    (h : enable = some false) (hp : p.enable = false) :
    hookC enable headOk dirPathname bucketRoot paths objects walkRes
      = ⟨[.logLine "Skip uploading the build assets to S3 storage."], none⟩
    ∧ hookB (.ok p) statO checkOk dirPathname tree
      = ⟨[.logLine "Skip the astro uploader."], none⟩ := by
  constructor
  · subst h
    simp [hookC]
  · simp [hookB, hp]

/-- C10 witness: both hooks applied with enable false. -/
theorem c10_enable_false_frame_witness :
    hookC (some false) true "/dist" "" [] (fun _ => none) (fun _ => [])
      = ⟨[.logLine "Skip uploading the build assets to S3 storage."], none⟩
    ∧ hookB (.ok ⟨false, []⟩) (fun _ => .error ⟨"socket closed"⟩) true "/dist"
        (fun _ => .dir .nil)
      = ⟨[.logLine "Skip the astro uploader."], none⟩ :=
  c10_enable_false_frame (some false) true "/dist" "" [] (fun _ => none)
    (fun _ => []) (fun _ => .error ⟨"socket closed"⟩) true (fun _ => .dir .nil)
    ⟨false, []⟩ rfl rfl

end AstroUploader
